import Mathlib

/-!
Verification of the spotify-downloader bot core (`src/spotify_bot.py`):
the link validator (regex search), the two-phase conversion client, the
filename derivation, and the delivery step.
-/

set_option maxRecDepth 4000

namespace SpotifyBot

/-- ASCII alphanumeric test, the character class of the source regex. -/
def isAlnumChar (c : Char) : Bool :=
  (('a' ≤ c && c ≤ 'z') || ('A' ≤ c && c ≤ 'Z') || ('0' ≤ c && c ≤ '9'))

/-- The scheme-plus-host literal with the https scheme. -/
def httpsHost : List Char := ("https://open.spotify.com/").data

/-- The scheme-plus-host literal with the http scheme. -/
def httpHost : List Char := ("http://open.spotify.com/").data

/-- The track path kind with its slash. -/
def trackLit : List Char := ("track/").data

/-- The album path kind with its slash. -/
def albumLit : List Char := ("album/").data

/-- The playlist path kind with its slash. -/
def playlistLit : List Char := ("playlist/").data

/-- The literal opening the optional share-parameter group. -/
def siLit : List Char := ("?si=").data

/-- The literal of the optional trailing group. -/
def ndLit : List Char := ("&nd=1").data

/-- Strip a literal pattern from the front of the input, returning the rest. -/
def stripLit : List Char → List Char → Option (List Char)
  | [], s => some s
  | _ :: _, [] => none
  | p :: ps, c :: cs => if c = p then stripLit ps cs else none

/-- Split off the maximal leading run of alphanumeric characters
(the greedy `[a-zA-Z0-9]+` consumption of the source regex). -/
def takeAlnum : List Char → List Char × List Char
  | [] => ([], [])
  | c :: cs =>
    if isAlnumChar c then ((c :: (takeAlnum cs).1), (takeAlnum cs).2)
    else ([], c :: cs)

/-- Match the scheme plus host part of the source regex,
the alternatives of the greedy `https?` fused with the literal host. -/
def matchSchemeHost (s : List Char) : Option (List Char × List Char) :=
  match stripLit httpsHost s with
  | some r => some (httpsHost, r)
  | none =>
    match stripLit httpHost s with
    | some r => some (httpHost, r)
    | none => none

/-- Match the path kind, the ordered alternation `(track|album|playlist)`
of the source regex fused with the following slash. -/
def matchKind (s : List Char) : Option (List Char × List Char) :=
  match stripLit trackLit s with
  | some r => some (trackLit, r)
  | none =>
    match stripLit albumLit s with
    | some r => some (albumLit, r)
    | none =>
      match stripLit playlistLit s with
      | some r => some (playlistLit, r)
      | none => none

/-- Match the optional greedy share-parameter group of the source regex. -/
def matchSiGroup (s : List Char) : List Char × List Char :=
  match stripLit siLit s with
  | some rest =>
    if (takeAlnum rest).1 = [] then ([], s)
    else (siLit ++ (takeAlnum rest).1, (takeAlnum rest).2)
  | none => ([], s)

/-- Match the optional literal suffix group of the source regex. -/
def matchNdGroup (s : List Char) : List Char × List Char :=
  match stripLit ndLit s with
  | some rest => (ndLit, rest)
  | none => ([], s)

/-- One match attempt of SPOTIFY_URL_PATTERN anchored at the start of the
input, as the Python regex engine executes it (greedy, ordered alternation);
returns matched characters and the remainder. -/
def matchAt (s : List Char) : Option (List Char × List Char) :=
  match matchSchemeHost s with
  | none => none
  | some shr =>
    match matchKind shr.2 with
    | none => none
    | some kr =>
      if (takeAlnum kr.2).1 = [] then none
      else
        some (shr.1 ++ kr.1 ++ (takeAlnum kr.2).1
                ++ (matchSiGroup (takeAlnum kr.2).2).1
                ++ (matchNdGroup (matchSiGroup (takeAlnum kr.2).2).2).1,
              (matchNdGroup (matchSiGroup (takeAlnum kr.2).2).2).2)

/-- SPOTIFY_URL_PATTERN.search: try a match at each start position, left to
right, returning the matched substring of the first position that succeeds. -/
def spotifySearch : List Char → Option (List Char)
  | [] => none
  | c :: cs =>
    match matchAt (c :: cs) with
    | some mr => some mr.1
    | none => spotifySearch cs

example : spotifySearch (("hi https://open.spotify.com/track/a1b?si=xx&nd=1 tail").data)
    = some (("https://open.spotify.com/track/a1b?si=xx&nd=1").data) := by decide

example : spotifySearch (("open.spotify.com/track/abc123?si=xyz").data) = none := by decide

example : spotifySearch (("https://open.spotify.com/track/abc?siq").data)
    = some (("https://open.spotify.com/track/abc").data) := by decide

/-- Shape of the optional share-parameter group of the URL grammar in §6:
either absent, or a question mark, `si=`, and a non-empty alphanumeric run. -/
def SiShape (si : List Char) : Prop :=
  si = [] ∨ ∃ t, t ≠ [] ∧ (∀ c ∈ t, isAlnumChar c = true) ∧ si = siLit ++ t

/-- Shape of the optional trailing group of the URL grammar in §6. -/
def NdShape (nd : List Char) : Prop :=
  nd = [] ∨ nd = ndLit

/-- The URL grammar of §6 of the specification, as a declarative predicate:
scheme http or https, host open.spotify.com, a path kind of track, album or
playlist, a non-empty alphanumeric identifier, an optional share parameter
and an optional trailing flag. -/
def UrlGrammar (m : List Char) : Prop :=
  ∃ sch kind idStr si nd,
    (sch = ("http").data ∨ sch = ("https").data) ∧
    (kind = ("track").data ∨ kind = ("album").data ∨ kind = ("playlist").data) ∧
    idStr ≠ [] ∧ (∀ c ∈ idStr, isAlnumChar c = true) ∧
    SiShape si ∧ NdShape nd ∧
    m = sch ++ ("://open.spotify.com/").data ++ kind ++ ("/").data ++ idStr ++ si ++ nd

/-- Fused form of the grammar: scheme and host as one literal, kind and its
slash as one literal.  This is the shape the matcher works with. -/
theorem urlGrammar_fused (m : List Char) :
    UrlGrammar m ↔ ∃ sh k idStr si nd,
      (sh = httpHost ∨ sh = httpsHost) ∧
      (k = trackLit ∨ k = albumLit ∨ k = playlistLit) ∧
      idStr ≠ [] ∧ (∀ c ∈ idStr, isAlnumChar c = true) ∧
      SiShape si ∧ NdShape nd ∧
      m = sh ++ k ++ idStr ++ si ++ nd := by
  constructor
  · rintro ⟨sch, kind, idStr, si, nd, hsch, hkind, hid, hal, hsi, hnd, rfl⟩
    refine ⟨sch ++ ("://open.spotify.com/").data, kind ++ ("/").data, idStr, si, nd, ?_, ?_, hid, hal, hsi, hnd, by simp⟩
    · rcases hsch with rfl | rfl
      · left; decide
      · right; decide
    · rcases hkind with rfl | rfl | rfl
      · left; decide
      · right; left; decide
      · right; right; decide
  · rintro ⟨sh, k, idStr, si, nd, hsh, hk, hid, hal, hsi, hnd, rfl⟩
    rcases hsh with rfl | rfl <;> rcases hk with rfl | rfl | rfl
    · exact ⟨("http").data, ("track").data, idStr, si, nd, Or.inl rfl, Or.inl rfl,
        hid, hal, hsi, hnd, by simp [httpHost, httpsHost, trackLit, albumLit, playlistLit]⟩
    · exact ⟨("http").data, ("album").data, idStr, si, nd, Or.inl rfl, Or.inr (Or.inl rfl),
        hid, hal, hsi, hnd, by simp [httpHost, httpsHost, trackLit, albumLit, playlistLit]⟩
    · exact ⟨("http").data, ("playlist").data, idStr, si, nd, Or.inl rfl, Or.inr (Or.inr rfl),
        hid, hal, hsi, hnd, by simp [httpHost, httpsHost, trackLit, albumLit, playlistLit]⟩
    · exact ⟨("https").data, ("track").data, idStr, si, nd, Or.inr rfl, Or.inl rfl,
        hid, hal, hsi, hnd, by simp [httpHost, httpsHost, trackLit, albumLit, playlistLit]⟩
    · exact ⟨("https").data, ("album").data, idStr, si, nd, Or.inr rfl, Or.inr (Or.inl rfl),
        hid, hal, hsi, hnd, by simp [httpHost, httpsHost, trackLit, albumLit, playlistLit]⟩
    · exact ⟨("https").data, ("playlist").data, idStr, si, nd, Or.inr rfl, Or.inr (Or.inr rfl),
        hid, hal, hsi, hnd, by simp [httpHost, httpsHost, trackLit, albumLit, playlistLit]⟩

/-! ### Basic lemmas about the matcher building blocks -/

theorem stripLit_eq_some {p s r : List Char} (h : stripLit p s = some r) : s = p ++ r := by
  induction p generalizing s with
  | nil => simpa [stripLit] using h
  | cons c p ih =>
    cases s with
    | nil => simp [stripLit] at h
    | cons d ds =>
      simp only [stripLit] at h
      by_cases hdc : d = c
      · subst hdc
        simp only [if_pos rfl] at h
        simpa using ih h
      · simp [hdc] at h

theorem stripLit_append (p r : List Char) : stripLit p (p ++ r) = some r := by
  induction p with
  | nil => simp [stripLit]
  | cons c p ih => simp [stripLit, ih]

theorem stripLit_none_of {p s : List Char} (h : stripLit p s = none) :
    ∀ r, s ≠ p ++ r := by
  intro r hr
  rw [hr, stripLit_append] at h
  exact Option.noConfusion h

/-- Two decompositions of the same list as literal-plus-rest force one literal
to extend the other. -/
theorem pre_total : ∀ (p q s r t : List Char), s = p ++ r → s = q ++ t →
    (∃ u, q = p ++ u) ∨ (∃ u, p = q ++ u) := by
  intro p
  induction p with
  | nil => intro q s r t _ _; left; exact ⟨q, by simp⟩
  | cons c p ih =>
    intro q s r t hp hq
    cases q with
    | nil => right; exact ⟨c :: p, by simp⟩
    | cons d q' =>
      cases s with
      | nil => simp at hp
      | cons e es =>
        simp only [List.cons_append, List.cons.injEq] at hp hq
        obtain ⟨rfl, hp2⟩ := hp
        obtain ⟨rfl, hq2⟩ := hq
        rcases ih q' es r t hp2 hq2 with ⟨u, hu⟩ | ⟨u, hu⟩
        · left; exact ⟨u, by simp [hu]⟩
        · right; exact ⟨u, by simp [hu]⟩

theorem takeAlnum_append (s : List Char) : (takeAlnum s).1 ++ (takeAlnum s).2 = s := by
  induction s with
  | nil => rfl
  | cons c cs ih =>
    by_cases h : isAlnumChar c
    · simp [takeAlnum, h, ih]
    · simp [takeAlnum, h]

theorem takeAlnum_alnum (s : List Char) : ∀ c ∈ (takeAlnum s).1, isAlnumChar c = true := by
  induction s with
  | nil => intro c hc; simp [takeAlnum] at hc
  | cons d ds ih =>
    intro c hc
    by_cases h : isAlnumChar d
    · simp only [takeAlnum, if_pos h] at hc
      rcases List.mem_cons.mp hc with rfl | hc
      · exact h
      · exact ih c hc
    · simp [takeAlnum, h] at hc

theorem takeAlnum_head (s : List Char) :
    ∀ c cs, (takeAlnum s).2 = c :: cs → isAlnumChar c = false := by
  induction s with
  | nil => intro c cs h; simp [takeAlnum] at h
  | cons d ds ih =>
    intro c cs h
    by_cases hd : isAlnumChar d
    · simp only [takeAlnum, if_pos hd] at h
      exact ih c cs h
    · simp only [takeAlnum, if_neg hd, List.cons.injEq] at h
      obtain ⟨rfl, _⟩ := h
      exact Bool.not_eq_true _ ▸ by simpa using hd

/-- Maximality of the greedy alphanumeric run: any alphanumeric decomposition
prefix extends into the run the matcher takes. -/
theorem takeAlnum_max {a r : List Char} (s : List Char) (hs : s = a ++ r)
    (ha : ∀ c ∈ a, isAlnumChar c = true) : ∃ d, (takeAlnum s).1 = a ++ d := by
  induction a generalizing s with
  | nil => exact ⟨(takeAlnum s).1, by simp⟩
  | cons c a' ih =>
    subst hs
    have hc : isAlnumChar c = true := ha c (by simp)
    have ha' : ∀ x ∈ a', isAlnumChar x = true := fun x hx => ha x (by simp [hx])
    obtain ⟨d, hd⟩ := ih (a' ++ r) rfl ha'
    exact ⟨d, by simp [takeAlnum, hc, hd]⟩

/-! ### Determinism of the scheme-host and kind alternations -/

/-- A literal whose strip fails on another literal does not extend it. -/
theorem not_ext_of_stripLit_none {p q : List Char} (h : stripLit p q = none) :
    ¬ ∃ u, q = p ++ u :=
  fun ⟨u, hu⟩ => stripLit_none_of h u hu

/-- A literal other than the one leading the decomposition cannot be stripped
either, provided neither literal extends the other. -/
theorem stripLit_none_of_decomp {s k rest p : List Char} (hs : s = k ++ rest)
    (hpk : stripLit p k = none) (hkp : stripLit k p = none) :
    stripLit p s = none := by
  cases h : stripLit p s with
  | none => rfl
  | some r =>
    exfalso
    have h2 := stripLit_eq_some h
    rcases pre_total p k s r rest h2 hs with hext | hext
    · obtain ⟨u, hu⟩ := hext
      rw [hu, stripLit_append] at hpk
      exact Option.noConfusion hpk
    · obtain ⟨u, hu⟩ := hext
      rw [hu, stripLit_append] at hkp
      exact Option.noConfusion hkp

/-- If the input decomposes with one of the two scheme-host literals in front,
the scheme-host matcher finds exactly that literal and that remainder. -/
theorem matchSchemeHost_det {s sh rest : List Char} (hs : s = sh ++ rest)
    (hsh : sh = httpHost ∨ sh = httpsHost) :
    matchSchemeHost s = some (sh, rest) := by
  rcases hsh with rfl | rfl
  · have hnone : stripLit httpsHost s = none :=
      stripLit_none_of_decomp hs (by decide) (by decide)
    subst hs
    simp only [matchSchemeHost, hnone, stripLit_append]
  · subst hs
    simp only [matchSchemeHost, stripLit_append]

/-- If the input decomposes with one of the three kind literals in front,
the kind matcher finds exactly that literal and that remainder. -/
theorem matchKind_det {s k rest : List Char} (hs : s = k ++ rest)
    (hk : k = trackLit ∨ k = albumLit ∨ k = playlistLit) :
    matchKind s = some (k, rest) := by
  rcases hk with rfl | rfl | rfl
  · subst hs
    simp only [matchKind, stripLit_append]
  · have h1 : stripLit trackLit s = none :=
      stripLit_none_of_decomp hs (by decide) (by decide)
    subst hs
    simp only [matchKind, h1, stripLit_append]
  · have h1 : stripLit trackLit s = none :=
      stripLit_none_of_decomp hs (by decide) (by decide)
    have h2 : stripLit albumLit s = none :=
      stripLit_none_of_decomp hs (by decide) (by decide)
    subst hs
    simp only [matchKind, h1, h2, stripLit_append]

/-! ### Soundness of the matcher pieces -/

theorem matchSchemeHost_inv {s : List Char} {p : List Char × List Char}
    (h : matchSchemeHost s = some p) :
    s = p.1 ++ p.2 ∧
      (p.1 = httpHost ∨ p.1 = httpsHost) := by
  unfold matchSchemeHost at h
  cases h1 : stripLit httpsHost s with
  | some r =>
    rw [h1] at h
    simp only [Option.some.injEq] at h
    subst h
    exact ⟨stripLit_eq_some h1, Or.inr rfl⟩
  | none =>
    rw [h1] at h
    cases h2 : stripLit httpHost s with
    | some r =>
      rw [h2] at h
      simp only [Option.some.injEq] at h
      subst h
      exact ⟨stripLit_eq_some h2, Or.inl rfl⟩
    | none =>
      rw [h2] at h
      exact Option.noConfusion h

theorem matchKind_inv {s : List Char} {p : List Char × List Char}
    (h : matchKind s = some p) :
    s = p.1 ++ p.2 ∧
      (p.1 = trackLit ∨ p.1 = albumLit ∨ p.1 = playlistLit) := by
  unfold matchKind at h
  cases h1 : stripLit trackLit s with
  | some r =>
    rw [h1] at h
    simp only [Option.some.injEq] at h
    subst h
    exact ⟨stripLit_eq_some h1, Or.inl rfl⟩
  | none =>
    rw [h1] at h
    cases h2 : stripLit albumLit s with
    | some r =>
      rw [h2] at h
      simp only [Option.some.injEq] at h
      subst h
      exact ⟨stripLit_eq_some h2, Or.inr (Or.inl rfl)⟩
    | none =>
      rw [h2] at h
      cases h3 : stripLit playlistLit s with
      | some r =>
        rw [h3] at h
        simp only [Option.some.injEq] at h
        subst h
        exact ⟨stripLit_eq_some h3, Or.inr (Or.inr rfl)⟩
      | none =>
        rw [h3] at h
        exact Option.noConfusion h

theorem matchSiGroup_append (s : List Char) :
    (matchSiGroup s).1 ++ (matchSiGroup s).2 = s := by
  unfold matchSiGroup
  cases h : stripLit siLit s with
  | none => simp
  | some rest =>
    by_cases ha : (takeAlnum rest).1 = []
    · simp [ha]
    · have := stripLit_eq_some h
      simp only [ha, if_neg ha, ite_false]
      rw [List.append_assoc, takeAlnum_append, ← this]

theorem matchSiGroup_shape (s : List Char) : SiShape (matchSiGroup s).1 := by
  unfold matchSiGroup SiShape
  cases h : stripLit siLit s with
  | none => simp
  | some rest =>
    by_cases ha : (takeAlnum rest).1 = []
    · simp [ha]
    · simp only [if_neg ha]
      exact Or.inr ⟨(takeAlnum rest).1, ha, takeAlnum_alnum rest, rfl⟩

theorem matchNdGroup_append (s : List Char) :
    (matchNdGroup s).1 ++ (matchNdGroup s).2 = s := by
  unfold matchNdGroup
  cases h : stripLit ndLit s with
  | none => simp
  | some rest =>
    have := stripLit_eq_some h
    simpa using this.symm

theorem matchNdGroup_shape (s : List Char) : NdShape (matchNdGroup s).1 := by
  unfold matchNdGroup NdShape
  cases h : stripLit ndLit s with
  | none => simp
  | some rest => simp

/-- Soundness of one anchored match attempt: the input splits as the match
followed by the remainder, and the match satisfies the URL grammar. -/
theorem matchAt_sound {s : List Char} {p : List Char × List Char}
    (h : matchAt s = some p) : s = p.1 ++ p.2 ∧ UrlGrammar p.1 := by
  unfold matchAt at h
  cases hsh : matchSchemeHost s with
  | none => rw [hsh] at h; exact Option.noConfusion h
  | some shr =>
    simp only [hsh] at h
    cases hk : matchKind shr.2 with
    | none => simp only [hk] at h; exact Option.noConfusion h
    | some kr =>
      simp only [hk] at h
      by_cases ha : (takeAlnum kr.2).1 = []
      · rw [if_pos ha] at h; exact Option.noConfusion h
      · rw [if_neg ha] at h
        simp only [Option.some.injEq] at h
        subst h
        obtain ⟨hs1, hsh2⟩ := matchSchemeHost_inv hsh
        obtain ⟨hs2, hk2⟩ := matchKind_inv hk
        constructor
        · rw [hs1, hs2]
          have h3 : (takeAlnum kr.2).1 ++ (takeAlnum kr.2).2 = kr.2 := takeAlnum_append _
          have h4 : (matchSiGroup (takeAlnum kr.2).2).1 ++ (matchSiGroup (takeAlnum kr.2).2).2
              = (takeAlnum kr.2).2 := matchSiGroup_append _
          have h5 : (matchNdGroup (matchSiGroup (takeAlnum kr.2).2).2).1
                ++ (matchNdGroup (matchSiGroup (takeAlnum kr.2).2).2).2
              = (matchSiGroup (takeAlnum kr.2).2).2 := matchNdGroup_append _
          simp only [List.append_assoc]
          rw [h5, h4, h3]
        · rw [urlGrammar_fused]
          exact ⟨shr.1, kr.1, (takeAlnum kr.2).1, (matchSiGroup (takeAlnum kr.2).2).1,
            (matchNdGroup (matchSiGroup (takeAlnum kr.2).2).2).1,
            hsh2, hk2, ha, takeAlnum_alnum _, matchSiGroup_shape _, matchNdGroup_shape _,
            by simp [List.append_assoc]⟩

/-! ### Maximality and completeness of the matcher -/

theorem stripLit_ne_head {p c : Char} {ps cs : List Char} (h : ¬ c = p) :
    stripLit (p :: ps) (c :: cs) = none := by
  simp [stripLit, h]

/-- Greedy handling of the optional groups is maximal: no admissible pair of
share-parameter and trailing groups at this position is longer than what the
matcher takes. -/
theorem si_nd_max {si' nd' : List Char} (rest r3 : List Char)
    (hr : r3 = si' ++ nd' ++ rest) (hsi : SiShape si') (hnd : NdShape nd') :
    si'.length + nd'.length ≤
      (matchSiGroup r3).1.length + (matchNdGroup (matchSiGroup r3).2).1.length := by
  rcases hsi with rfl | ⟨t, ht, hta, rfl⟩
  · rcases hnd with rfl | rfl
    · simp
    · simp only [List.nil_append] at hr
      subst hr
      have hstrip : stripLit siLit (ndLit ++ rest) = none := by
        have hco : ndLit ++ rest = '&' :: (("nd=1").data ++ rest) := rfl
        rw [hco]
        exact stripLit_ne_head (by decide)
      have hsig : matchSiGroup (ndLit ++ rest) = ([], ndLit ++ rest) := by
        unfold matchSiGroup
        rw [hstrip]
      rw [hsig]
      have hndg : matchNdGroup (ndLit ++ rest) = (ndLit, rest) := by
        unfold matchNdGroup
        rw [stripLit_append]
      rw [hndg]
  · -- the share-parameter group is present in the decomposition
    simp only [List.append_assoc] at hr
    subst hr
    have hstrip := stripLit_append siLit (t ++ (nd' ++ rest))
    obtain ⟨d, hd⟩ := takeAlnum_max (t ++ (nd' ++ rest)) rfl hta
    have hane : (takeAlnum (t ++ (nd' ++ rest))).1 ≠ [] := by
      rw [hd]
      intro hco
      exact ht (List.append_eq_nil.mp hco).1
    have hsig : matchSiGroup (siLit ++ (t ++ (nd' ++ rest)))
        = (siLit ++ (takeAlnum (t ++ (nd' ++ rest))).1,
           (takeAlnum (t ++ (nd' ++ rest))).2) := by
      unfold matchSiGroup
      simp only [hstrip, if_neg hane]
    rw [hsig]
    have hsplit := takeAlnum_append (t ++ (nd' ++ rest))
    rw [hd, List.append_assoc] at hsplit
    have hdr : d ++ (takeAlnum (t ++ (nd' ++ rest))).2 = nd' ++ rest :=
      List.append_cancel_left hsplit
    have hlent : t.length ≤ (takeAlnum (t ++ (nd' ++ rest))).1.length := by
      rw [hd]
      simp
    cases d with
    | nil =>
      -- the greedy run is exactly the decomposition's run
      simp only [List.nil_append] at hdr
      rcases hnd with rfl | rfl
      · simp only [List.length_append, List.length_nil]
        omega
      · have hndg : matchNdGroup (takeAlnum (t ++ (ndLit ++ rest))).2
            = (ndLit, rest) := by
          unfold matchNdGroup
          simp only [hdr, stripLit_append]
        rw [hndg]
        simp only [List.length_append]
        omega
    | cons e d' =>
      -- the greedy run is strictly longer, so the trailing group is empty
      have healnum : isAlnumChar e = true := by
        have hm : e ∈ (takeAlnum (t ++ (nd' ++ rest))).1 := by
          rw [hd]
          exact List.mem_append.mpr (Or.inr (by simp))
        exact takeAlnum_alnum _ e hm
      rcases hnd with rfl | rfl
      · simp only [List.length_append, List.length_nil]
        omega
      · exfalso
        have hco : ndLit ++ rest = '&' :: ((("nd=1").data) ++ rest) := rfl
        rw [hco] at hdr
        have he : e = '&' := ((List.cons.injEq _ _ _ _).mp hdr).1
        rw [he] at healnum
        exact absurd healnum (by decide)

/-- Greedy handling of the identifier run and the optional groups together:
the matcher accepts at this position, and no admissible identifier-plus-groups
decomposition is longer than what it takes. -/
theorem tail_max {idStr si' nd' : List Char} (rest r2 : List Char)
    (hr : r2 = idStr ++ (si' ++ (nd' ++ rest)))
    (hid : idStr ≠ []) (hal : ∀ c ∈ idStr, isAlnumChar c = true)
    (hsi : SiShape si') (hnd : NdShape nd') :
    (takeAlnum r2).1 ≠ [] ∧
      idStr.length + si'.length + nd'.length ≤
        (takeAlnum r2).1.length + (matchSiGroup (takeAlnum r2).2).1.length
          + (matchNdGroup (matchSiGroup (takeAlnum r2).2).2).1.length := by
  obtain ⟨d, hd⟩ := takeAlnum_max r2 hr hal
  have hane : (takeAlnum r2).1 ≠ [] := by
    rw [hd]
    intro hco
    exact hid (List.append_eq_nil.mp hco).1
  refine ⟨hane, ?_⟩
  have hsplit := takeAlnum_append r2
  rw [hd, List.append_assoc] at hsplit
  have hdr : d ++ (takeAlnum r2).2 = si' ++ (nd' ++ rest) :=
    List.append_cancel_left (hsplit.trans hr)
  cases d with
  | nil =>
    -- the greedy run is exactly the identifier
    rw [List.nil_append] at hdr
    have hlen : (takeAlnum r2).1.length = idStr.length := by
      rw [hd]
      simp
    have hrec := si_nd_max rest (takeAlnum r2).2 (hdr.trans (List.append_assoc si' nd' rest).symm) hsi hnd
    omega
  | cons e d' =>
    -- the greedy run extends past the identifier, so both optional groups
    -- in the decomposition are empty
    have healnum : isAlnumChar e = true := by
      have hm : e ∈ (takeAlnum r2).1 := by
        rw [hd]
        exact List.mem_append.mpr (Or.inr (by simp))
      exact takeAlnum_alnum _ e hm
    have hsie : si' = [] := by
      rcases hsi with hsie | ⟨t, ht, hta, hteq⟩
      · exact hsie
      · exfalso
        rw [hteq, List.append_assoc] at hdr
        have hco : siLit ++ (t ++ (nd' ++ rest)) = '?' :: (("si=").data ++ (t ++ (nd' ++ rest))) := rfl
        rw [hco] at hdr
        have he : e = '?' := ((List.cons.injEq _ _ _ _).mp hdr).1
        rw [he] at healnum
        exact absurd healnum (by decide)
    have hnde : nd' = [] := by
      rcases hnd with hnde | hnde
      · exact hnde
      · exfalso
        rw [hsie, List.nil_append, hnde] at hdr
        have hco : ndLit ++ rest = '&' :: (("nd=1").data ++ rest) := rfl
        rw [hco] at hdr
        have he : e = '&' := ((List.cons.injEq _ _ _ _).mp hdr).1
        rw [he] at healnum
        exact absurd healnum (by decide)
    have hA : (takeAlnum r2).1.length = idStr.length + (d'.length + 1) := by
      rw [hd]
      simp
    have h0 : si'.length = 0 := by rw [hsie]; rfl
    have h1 : nd'.length = 0 := by rw [hnde]; rfl
    omega

/-- Completeness with maximality: if the URL grammar matches at this position,
the matcher succeeds here, with a match at least as long as any grammar match
at this position. -/
theorem matchAt_complete_max {s m rest : List Char} (hs : s = m ++ rest)
    (hm : UrlGrammar m) : ∃ p, matchAt s = some p ∧ m.length ≤ p.1.length := by
  rw [urlGrammar_fused] at hm
  obtain ⟨sh, k, idStr, si', nd', hsh, hk, hid, hal, hsi, hnd, rfl⟩ := hm
  have hs1 : s = sh ++ (k ++ (idStr ++ (si' ++ (nd' ++ rest)))) := by
    rw [hs]
    simp [List.append_assoc]
  have hsh1 := matchSchemeHost_det hs1 hsh
  have hk1 := matchKind_det (rfl : k ++ (idStr ++ (si' ++ (nd' ++ rest)))
      = k ++ (idStr ++ (si' ++ (nd' ++ rest)))) hk
  obtain ⟨hane, hlen⟩ := tail_max rest (idStr ++ (si' ++ (nd' ++ rest))) rfl hid hal hsi hnd
  have hmat : matchAt s
      = some (sh ++ k ++ (takeAlnum (idStr ++ (si' ++ (nd' ++ rest)))).1
            ++ (matchSiGroup (takeAlnum (idStr ++ (si' ++ (nd' ++ rest)))).2).1
            ++ (matchNdGroup (matchSiGroup (takeAlnum (idStr ++ (si' ++ (nd' ++ rest)))).2).2).1,
          (matchNdGroup (matchSiGroup (takeAlnum (idStr ++ (si' ++ (nd' ++ rest)))).2).2).2) := by
    unfold matchAt
    simp only [hsh1, hk1, if_neg hane]
  refine ⟨_, hmat, ?_⟩
  simp only [List.length_append]
  omega

theorem urlGrammar_ne_nil {m : List Char} (h : UrlGrammar m) : m ≠ [] := by
  rw [urlGrammar_fused] at h
  obtain ⟨sh, k, idStr, si, nd, hsh, hk, hid, hal, hsi, hnd, rfl⟩ := h
  intro hco
  have h1 := List.append_eq_nil.mp hco
  have h2 := List.append_eq_nil.mp h1.1
  have h3 := List.append_eq_nil.mp h2.1
  exact hid h3.2

/-! ### The search level: leftmost match -/

theorem spotifySearch_none : ∀ (s : List Char), spotifySearch s = none →
    ∀ pre m post, s = pre ++ m ++ post → ¬ UrlGrammar m := by
  intro s
  induction s with
  | nil =>
    intro _ pre m post hdec hg
    have h1 := List.append_eq_nil.mp hdec.symm
    exact urlGrammar_ne_nil hg (List.append_eq_nil.mp h1.1).2
  | cons c cs ih =>
    intro h pre m post hdec hg
    have hnone : matchAt (c :: cs) = none := by
      cases hma : matchAt (c :: cs) with
      | none => rfl
      | some p =>
        simp only [spotifySearch, hma] at h
        exact Option.noConfusion h
    have htail : spotifySearch cs = none := by
      simp only [spotifySearch, hnone] at h
      exact h
    cases pre with
    | nil =>
      rw [List.nil_append] at hdec
      obtain ⟨p, hp, _⟩ := matchAt_complete_max hdec hg
      rw [hnone] at hp
      exact Option.noConfusion hp
    | cons d pre' =>
      simp only [List.cons_append, List.cons.injEq] at hdec
      exact ih htail pre' m post hdec.2 hg

theorem spotifySearch_sound : ∀ (s m : List Char), spotifySearch s = some m →
    UrlGrammar m ∧ ∃ pre post, s = pre ++ m ++ post ∧
      ∀ pre' m' post', s = pre' ++ m' ++ post' → UrlGrammar m' →
        pre.length ≤ pre'.length ∧ (pre'.length = pre.length → m'.length ≤ m.length) := by
  intro s
  induction s with
  | nil => intro m h; exact Option.noConfusion h
  | cons c cs ih =>
    intro m h
    cases hma : matchAt (c :: cs) with
    | some p =>
      simp only [spotifySearch, hma] at h
      obtain rfl : p.1 = m := Option.some.inj h
      obtain ⟨hsplit, hg⟩ := matchAt_sound hma
      refine ⟨hg, [], p.2, by simpa using hsplit, ?_⟩
      intro pre' m' post' hdec hg'
      refine ⟨Nat.zero_le _, ?_⟩
      intro hlen
      have hpre : pre' = [] := List.eq_nil_of_length_eq_zero (by simpa using hlen)
      subst hpre
      rw [List.nil_append] at hdec
      obtain ⟨q, hq, hle⟩ := matchAt_complete_max hdec hg'
      rw [hma] at hq
      obtain rfl : p = q := Option.some.inj hq
      exact hle
    | none =>
      simp only [spotifySearch, hma] at h
      obtain ⟨hg, pre0, post0, hdec0, hmax0⟩ := ih m h
      refine ⟨hg, c :: pre0, post0, by simp [hdec0], ?_⟩
      intro pre' m' post' hdec hg'
      cases pre' with
      | nil =>
        exfalso
        rw [List.nil_append] at hdec
        obtain ⟨q, hq, _⟩ := matchAt_complete_max hdec hg'
        rw [hma] at hq
        exact Option.noConfusion hq
      | cons d pre'' =>
        simp only [List.cons_append, List.cons.injEq] at hdec
        have hrec := hmax0 pre'' m' post' hdec.2 hg'
        constructor
        · simpa using Nat.succ_le_succ hrec.1
        · intro hlen
          exact hrec.2 (by simpa using hlen)

/-! ### Claim C1 -/

/-- C1: for every input string, the Link Validator (SPOTIFY_URL_PATTERN.search
as used by handle_message) returns a substring satisfying the URL grammar of
§6 at the leftmost position where any grammar match starts, and the longest
grammar match at that position (exactly that substring and nothing more);
for every string containing no grammar-matching substring it returns
no-match. -/
theorem claim1_link_validator (s : List Char) :
    (∀ m, spotifySearch s = some m →
      UrlGrammar m ∧ ∃ pre post, s = pre ++ m ++ post ∧
        ∀ pre' m' post', s = pre' ++ m' ++ post' → UrlGrammar m' →
          pre.length ≤ pre'.length ∧ (pre'.length = pre.length → m'.length ≤ m.length)) ∧
    (spotifySearch s = none → ∀ pre m post, s = pre ++ m ++ post → ¬ UrlGrammar m) :=
  ⟨fun m h => spotifySearch_sound s m h, fun h pre m post hd => spotifySearch_none s h pre m post hd⟩

/-- Witness for C1 at a concrete message: the validator finds the grammar
match embedded in surrounding text. -/
theorem claim1_link_validator_witness :
    spotifySearch (("see https://open.spotify.com/track/4uLU6h?si=ab2&nd=1 now").data)
        = some (("https://open.spotify.com/track/4uLU6h?si=ab2&nd=1").data) ∧
    UrlGrammar (("https://open.spotify.com/track/4uLU6h?si=ab2&nd=1").data) :=
  ⟨by decide,
   ((claim1_link_validator (("see https://open.spotify.com/track/4uLU6h?si=ab2&nd=1 now").data)).1
      (("https://open.spotify.com/track/4uLU6h?si=ab2&nd=1").data) (by decide)).1⟩

/-! ### The message handler (C7) -/

/-- Actions the message handler can take towards the chat platform. -/
inductive HandlerAction
  | noAction
  | replyText (t : List Char)
  | processLink (url : List Char)
  deriving DecidableEq

/-- The reply sent when no Spotify URL is recognized in the message text. -/
def invalidUrlReply : List Char :=
  ("That doesn\x27t look like a valid Spotify track URL. Please send a link that starts with `https://open.spotify.com/track/...`").data

/-- The handle_message entry point: an absent or empty text returns silently;
otherwise the first regex match is processed, and if there is none the
explanation reply is sent. -/
def handle_message (text : Option (List Char)) : HandlerAction :=
  match text with
  | none => .noAction
  | some t =>
    if t = [] then .noAction
    else
      match spotifySearch t with
      | some m => .processLink m
      | none => .replyText invalidUrlReply

/-- Counterexample to C7 as stated: the empty message text contains no
recognizable link, yet the handler returns without sending any reply. -/
theorem claim7_counterexample :
    spotifySearch [] = none ∧ handle_message (some []) = HandlerAction.noAction := by
  constructor <;> rfl

/-- C7 (amended): for every inbound text event whose text is non-empty and
contains no substring recognizable as a link, the handler replies with the
message explaining the expected URL format; an event with absent or empty
text is ignored without a reply. -/
theorem claim7_no_match_reply (t : List Char) :
    (t ≠ [] → spotifySearch t = none → handle_message (some t) = .replyText invalidUrlReply) ∧
    handle_message (some []) = .noAction ∧ handle_message none = .noAction := by
  refine ⟨?_, rfl, rfl⟩
  intro hne hnone
  simp only [handle_message, if_neg hne, hnone]

/-- Witness for C7 on a concrete message without a link. -/
theorem claim7_no_match_reply_witness :
    handle_message (some (("hello there").data)) = .replyText invalidUrlReply :=
  (claim7_no_match_reply (("hello there").data)).1 (by decide) (by decide)

/-! ### Filename derivation (C4) -/

/-- Python str.split with an explicit one-character separator: split at every
occurrence, keeping empty parts; the result is never empty. -/
def pySplit (sep : Char) : List Char → List (List Char)
  | [] => [[]]
  | c :: cs =>
    if c = sep then [] :: pySplit sep cs
    else
      match pySplit sep cs with
      | [] => [[c]]
      | g :: gs => (c :: g) :: gs

/-- Python negative indexing xs[-1]: the last element, absent on an empty list. -/
def pyLast : List (List Char) → Option (List Char)
  | [] => none
  | [x] => some x
  | _ :: x :: xs => pyLast (x :: xs)

/-- Python indexing xs[0]: the first element, absent on an empty list. -/
def pyFirst : List (List Char) → Option (List Char)
  | [] => none
  | x :: _ => some x

/-- The body of the try block deriving the track id:
spotify_url.split('/')[-1].split('?')[0].  A `none` result models the only
way the try block could raise. -/
def track_id (url : List Char) : Option (List Char) :=
  (pyLast (pySplit '/' url)).bind (fun seg => pyFirst (pySplit '?' seg))

/-- track_name as computed in call_download_api: the prefixed id from the try
block, or the generic fallback from the except branch. -/
def track_name (url : List Char) : List Char :=
  match track_id url with
  | some tid => ("Track_").data ++ tid
  | none => ("Downloaded_Track").data

/-- The suffix of the input after its last occurrence of the separator
(the whole input if the separator does not occur). -/
def afterLast (sep : Char) : List Char → List Char
  | [] => []
  | c :: cs =>
    if sep ∈ cs then afterLast sep cs
    else if c = sep then cs
    else c :: cs

/-- The prefix of the input before its first occurrence of the separator
(the whole input if the separator does not occur). -/
def beforeFirst (sep : Char) : List Char → List Char
  | [] => []
  | c :: cs => if c = sep then [] else c :: beforeFirst sep cs

theorem pySplit_ne_nil (sep : Char) (s : List Char) : pySplit sep s ≠ [] := by
  cases s with
  | nil => simp [pySplit]
  | cons c cs =>
    by_cases h : c = sep
    · simp [pySplit, h]
    · simp only [pySplit, if_neg h]
      cases pySplit sep cs with
      | nil => simp
      | cons g gs => simp

theorem pySplit_no_sep {sep : Char} {s : List Char} (h : sep ∉ s) :
    pySplit sep s = [s] := by
  induction s with
  | nil => rfl
  | cons c cs ih =>
    have hc : ¬ c = sep := fun hco => h (by rw [hco]; simp)
    have hcs : sep ∉ cs := fun hco => h (by simp [hco])
    simp [pySplit, hc, ih hcs]

theorem pySplit_mem_sep {sep : Char} {s : List Char} (h : sep ∈ s) :
    ∃ g gs, pySplit sep s = g :: gs ∧ gs ≠ [] := by
  induction s with
  | nil => simp at h
  | cons c cs ih =>
    by_cases hc : c = sep
    · exact ⟨[], pySplit sep cs, by simp [pySplit, hc], pySplit_ne_nil sep cs⟩
    · have hcs : sep ∈ cs := by
        rcases List.mem_cons.mp h with hco | hco
        · exact absurd hco.symm hc
        · exact hco
      obtain ⟨g, gs, hg, hgs⟩ := ih hcs
      exact ⟨c :: g, gs, by simp [pySplit, hc, hg], hgs⟩

theorem pyLast_cons_cons (x y : List Char) (xs : List (List Char)) :
    pyLast (x :: y :: xs) = pyLast (y :: xs) := rfl

/-- The last split group is the suffix after the last separator. -/
theorem pyLast_pySplit (sep : Char) : ∀ s : List Char,
    pyLast (pySplit sep s) = some (afterLast sep s) := by
  intro s
  induction s with
  | nil => rfl
  | cons c cs ih =>
    by_cases hmem : sep ∈ cs
    · obtain ⟨g, gs, hg, hgs⟩ := pySplit_mem_sep hmem
      cases gs with
      | nil => exact absurd rfl hgs
      | cons y ys =>
        by_cases hc : c = sep
        · simp only [pySplit, if_pos hc, afterLast, if_pos hmem]
          rw [hg] at ih ⊢
          rw [pyLast_cons_cons]
          exact ih
        · simp only [pySplit, if_neg hc, afterLast, if_pos hmem]
          rw [hg] at ih ⊢
          rw [pyLast_cons_cons]
          rw [pyLast_cons_cons] at ih
          exact ih
    · have h2 := pySplit_no_sep hmem
      by_cases hc : c = sep
      · simp only [pySplit, if_pos hc, h2, afterLast, if_neg hmem, if_pos hc]
        rfl
      · simp only [pySplit, if_neg hc, h2, afterLast, if_neg hmem]
        rfl

/-- The first split group is the prefix before the first separator. -/
theorem pyFirst_pySplit (sep : Char) : ∀ s : List Char,
    pyFirst (pySplit sep s) = some (beforeFirst sep s) := by
  intro s
  induction s with
  | nil => rfl
  | cons c cs ih =>
    by_cases hc : c = sep
    · simp [pySplit, hc, beforeFirst, pyFirst]
    · simp only [pySplit, if_neg hc, beforeFirst]
      cases hg : pySplit sep cs with
      | nil => exact absurd hg (pySplit_ne_nil sep cs)
      | cons g gs =>
        rw [hg] at ih
        simp only [pyFirst] at ih ⊢
        rw [Option.some.inj ih]

/-- Counterexample to C4 as stated: on the empty source URL the segment
extraction does not fail, so the name is the bare fixed label, not the
generic fallback name. -/
theorem claim4_counterexample :
    track_name [] = ("Track_").data ∧ ("Track_").data ≠ ("Downloaded_Track").data := by
  constructor
  · rfl
  · decide

/-- C4 (amended): the suggested filename is always the fixed label followed
by the last path segment of the source URL stripped of any query string; the
derivation is total, never uses the generic fallback (the except branch is
unreachable because Python str.split and the indexings it feeds cannot fail),
and on the empty string yields the bare label. -/
theorem claim4_filename_derivation (url : List Char) :
    track_id url ≠ none ∧
    track_name url = ("Track_").data ++ beforeFirst '?' (afterLast '/' url) := by
  have hid : track_id url = some (beforeFirst '?' (afterLast '/' url)) := by
    unfold track_id
    rw [pyLast_pySplit]
    exact pyFirst_pySplit '?' (afterLast '/' url)
  constructor
  · rw [hid]; exact Option.noConfusion
  · unfold track_name
    rw [hid]

/-- Witness for C4 on the URL of the specification example. -/
theorem claim4_filename_derivation_witness :
    track_name (("https://open.spotify.com/track/xyz789").data)
      = ("Track_xyz789").data := by
  have h := (claim4_filename_derivation (("https://open.spotify.com/track/xyz789").data)).2
  rw [h]
  decide

/-! ### The two-phase conversion client -/

/-- The JSON body of a successful Phase-1 HTTP exchange, as call_download_api
reads it: whether the error flag is exactly the boolean true, and the values
of the url and payload fields when present. -/
structure ApiBody where
  errorIsTrue : Bool
  url : Option (List Char)
  payload : Option (List Char)
  deriving DecidableEq

/-- Outcome of the Phase-1 POST as the surrounding Python code can observe
it: a timeout, another transport-level error, a non-success status (raised by
raise_for_status), an unparseable JSON body, or a parsed body. -/
inductive P1Outcome
  | timeout
  | connError
  | statusError (code : Nat)
  | badJson
  | ok (body : ApiBody)
  deriving DecidableEq

/-- Outcome of the Phase-2 GET: a timeout, another transport-level error, a
non-success status, or the fetched bytes. -/
inductive P2Outcome
  | timeout
  | connError
  | statusError (code : Nat)
  | ok (content : List Nat)
  deriving DecidableEq

/-- Behavior of the remote conversion service for one client invocation. -/
structure RemoteWorld where
  p1 : P1Outcome
  p2 : P2Outcome
  deriving DecidableEq

/-- The return point taken by call_download_api, recording the cause (in the
source, the timeout causes take the requests Timeout handler, the connection
and status causes take the RequestException handler, and a JSON parse
failure takes the generic handler; all return the same None pair). -/
inductive ExitPath
  | success
  | p1Timeout
  | p1ConnError
  | p1StatusError
  | p1BadJson
  | errorFlagOrNoUrl
  | missingUrlOrPayload
  | p2Timeout
  | p2ConnError
  | p2StatusError
  | tooLarge
  deriving DecidableEq

/-- The in-memory audio file built from the fetched bytes
(BytesIO plus its assigned name). -/
structure AudioFile where
  content : List Nat
  name : List Char
  deriving DecidableEq

/-- Everything observable about one call_download_api invocation: the two
components of the returned tuple, whether the Phase-2 GET was issued, and the
return point taken. -/
structure ApiCallResult where
  audioFile : Option AudioFile
  trackName : Option (List Char)
  p2Invoked : Bool
  exit : ExitPath
  deriving DecidableEq

/-- Python truthiness of an optional string: false for an absent value and
for the empty string. -/
def pyTruthy : Option (List Char) → Bool
  | none => false
  | some [] => false
  | some (_ :: _) => true

/-- The 50 MiB ceiling in bytes: the comparison len/(1024*1024) > 50 of the
source is exact for any realistic length (division by 2 to the 20th power is
exact in double precision below 2 to the 53rd), so it holds exactly when the
byte count exceeds 50*1024*1024. -/
def sizeLimitBytes : Nat := 52428800

/-- call_download_api of the source, as a function of the source URL and the
remote behavior: Phase-1 failures and body checks come before the Phase-2
GET, then the size ceiling, then the successful tuple. -/
def call_download_api (spotify_url : List Char) (w : RemoteWorld) : ApiCallResult :=
  match w.p1 with
  | .timeout => ⟨none, none, false, .p1Timeout⟩
  | .connError => ⟨none, none, false, .p1ConnError⟩
  | .statusError _ => ⟨none, none, false, .p1StatusError⟩
  | .badJson => ⟨none, none, false, .p1BadJson⟩
  | .ok body =>
    if body.errorIsTrue || !(pyTruthy body.url) then
      ⟨none, none, false, .errorFlagOrNoUrl⟩
    else
      if !(pyTruthy body.url) || !(pyTruthy body.payload) then
        ⟨none, none, false, .missingUrlOrPayload⟩
      else
        match w.p2 with
        | .timeout => ⟨none, none, true, .p2Timeout⟩
        | .connError => ⟨none, none, true, .p2ConnError⟩
        | .statusError _ => ⟨none, none, true, .p2StatusError⟩
        | .ok content =>
          if sizeLimitBytes < content.length then
            ⟨none, none, true, .tooLarge⟩
          else
            ⟨some ⟨content, track_name spotify_url ++ (".mp3").data⟩,
              some (track_name spotify_url), true, .success⟩

/-- The failure taxonomy of §7 of the specification. -/
inductive FailureKind
  | TransportFailure
  | RemoteRejection
  | PayloadTooLarge
  | UnexpectedError
  deriving DecidableEq

/-- Modelled from the spec: the source only logs its failures, so the
failure kinds of §7 are not reified in the code; this classifies each return
point of call_download_api by the taxonomy table of §7 (timeouts and
transport errors are TransportFailure; non-success statuses, malformed JSON
and bodies failing the error/url/payload checks are RemoteRejection; the size
ceiling is PayloadTooLarge). -/
def classify : ExitPath → Option FailureKind
  | .success => none
  | .p1Timeout => some .TransportFailure
  | .p1ConnError => some .TransportFailure
  | .p1StatusError => some .RemoteRejection
  | .p1BadJson => some .RemoteRejection
  | .errorFlagOrNoUrl => some .RemoteRejection
  | .missingUrlOrPayload => some .RemoteRejection
  | .p2Timeout => some .TransportFailure
  | .p2ConnError => some .TransportFailure
  | .p2StatusError => some .RemoteRejection
  | .tooLarge => some .PayloadTooLarge

/-! ### The delivery step of process_spotify_link -/

/-- Observable events of the delivery step, in order of occurrence. -/
inductive DeliveryEvent
  | audioSent
  | audioSendFailed
  | statusEditedSuccess
  | statusEditFailed
  | deliveryFailureReply
  | bufferClosed
  | apiFailureEdit
  deriving DecidableEq

/-- The delivery step of process_spotify_link after call_download_api
returns: with an audio file in hand, the try block sends the audio and edits
the status message to the success text, the except block sends the distinct
upload-failure reply, and the finally block closes the buffer; without one,
the status message is edited to the failure text. -/
def deliverStep (hasAudio sendFails editFails : Bool) : List DeliveryEvent :=
  if hasAudio then
    if sendFails then [.audioSendFailed, .deliveryFailureReply, .bufferClosed]
    else if editFails then [.audioSent, .statusEditFailed, .deliveryFailureReply, .bufferClosed]
    else [.audioSent, .statusEditedSuccess, .bufferClosed]
  else [.apiFailureEdit]

/-- process_spotify_link: run the client, then the delivery step on whether
an audio file was returned. -/
def process_spotify_link (url : List Char) (w : RemoteWorld) (sendFails editFails : Bool) :
    List DeliveryEvent :=
  deliverStep (call_download_api url w).audioFile.isSome sendFails editFails

/-! ### Claim C2 -/

/-- C2: whenever the Phase-1 JSON body signals the explicit error flag, or
lacks a non-empty url field, or lacks a non-empty payload field, the client
returns absence of both tuple components, never issues the Phase-2 fetch,
and the exit is classified RemoteRejection. -/
theorem claim2_phase1_rejection (url : List Char) (w : RemoteWorld) (b : ApiBody)
    (h1 : w.p1 = .ok b)
    (hbad : b.errorIsTrue = true ∨ b.url = none ∨ b.url = some [] ∨
            b.payload = none ∨ b.payload = some []) :
    (call_download_api url w).audioFile = none ∧
    (call_download_api url w).trackName = none ∧
    (call_download_api url w).p2Invoked = false ∧
    classify (call_download_api url w).exit = some .RemoteRejection := by
  have hcond : (b.errorIsTrue || !pyTruthy b.url) = true ∨
      ((b.errorIsTrue || !pyTruthy b.url) = false ∧
        (!pyTruthy b.url || !pyTruthy b.payload) = true) := by
    rcases hbad with he | hu | hu | hp | hp
    · left; rw [he]; rfl
    · left; rw [hu]; simp [pyTruthy]
    · left; rw [hu]; simp [pyTruthy]
    · cases hc : (b.errorIsTrue || !pyTruthy b.url) with
      | true => left; rfl
      | false => right; exact ⟨rfl, by rw [hp]; simp [pyTruthy]⟩
    · cases hc : (b.errorIsTrue || !pyTruthy b.url) with
      | true => left; rfl
      | false => right; exact ⟨rfl, by rw [hp]; simp [pyTruthy]⟩
  rcases hcond with hc | ⟨hc1, hc2⟩
  · simp [call_download_api, h1, hc, classify]
  · simp [call_download_api, h1, hc1, hc2, classify]

/-- Witness for C2 at a concrete body carrying the error flag. -/
theorem claim2_phase1_rejection_witness :
    (call_download_api (("u").data)
        ⟨.ok ⟨true, some (("x").data), some (("y").data)⟩, .ok [7]⟩).p2Invoked = false :=
  (claim2_phase1_rejection (("u").data) _ ⟨true, some (("x").data), some (("y").data)⟩
    rfl (Or.inl rfl)).2.2.1

/-! ### Claim C8 -/

/-- C8: a Phase-1 timeout makes the client return absence immediately, the
Phase-2 fetch is never issued, and the failure is classified TransportFailure
and not RemoteRejection. -/
theorem claim8_phase1_timeout (url : List Char) (w : RemoteWorld)
    (h1 : w.p1 = .timeout) :
    (call_download_api url w).audioFile = none ∧
    (call_download_api url w).trackName = none ∧
    (call_download_api url w).p2Invoked = false ∧
    classify (call_download_api url w).exit = some .TransportFailure ∧
    classify (call_download_api url w).exit ≠ some .RemoteRejection := by
  simp [call_download_api, h1, classify]

/-- Witness for C8 at a concrete timing-out world. -/
theorem claim8_phase1_timeout_witness :
    classify (call_download_api (("u").data) ⟨.timeout, .ok [1]⟩).exit
      = some .TransportFailure :=
  (claim8_phase1_timeout (("u").data) ⟨.timeout, .ok [1]⟩ rfl).2.2.2.1

/-! ### Shape of every client result -/

/-- Every invocation either returns the None pair (with some exit path), or
the full success tuple built from Phase-2 bytes within the size ceiling. -/
theorem call_shape (url : List Char) (w : RemoteWorld) :
    (∃ b e, call_download_api url w = ⟨none, none, b, e⟩) ∨
    (∃ content, content.length ≤ sizeLimitBytes ∧
      call_download_api url w = ⟨some ⟨content, track_name url ++ (".mp3").data⟩,
        some (track_name url), true, .success⟩) := by
  rcases w with ⟨p1, p2⟩
  cases p1 with
  | timeout => exact Or.inl ⟨false, .p1Timeout, rfl⟩
  | connError => exact Or.inl ⟨false, .p1ConnError, rfl⟩
  | statusError c => exact Or.inl ⟨false, .p1StatusError, rfl⟩
  | badJson => exact Or.inl ⟨false, .p1BadJson, rfl⟩
  | ok body =>
    by_cases hc1 : (body.errorIsTrue || !pyTruthy body.url) = true
    · exact Or.inl ⟨false, .errorFlagOrNoUrl, by simp [call_download_api, hc1]⟩
    · by_cases hc2 : (!pyTruthy body.url || !pyTruthy body.payload) = true
      · exact Or.inl ⟨false, .missingUrlOrPayload, by simp [call_download_api, hc1, hc2]⟩
      · cases p2 with
        | timeout => exact Or.inl ⟨true, .p2Timeout, by simp [call_download_api, hc1, hc2]⟩
        | connError => exact Or.inl ⟨true, .p2ConnError, by simp [call_download_api, hc1, hc2]⟩
        | statusError c =>
          exact Or.inl ⟨true, .p2StatusError, by simp [call_download_api, hc1, hc2]⟩
        | ok content =>
          by_cases hsz : sizeLimitBytes < content.length
          · exact Or.inl ⟨true, .tooLarge, by simp [call_download_api, hc1, hc2, hsz]⟩
          · exact Or.inr ⟨content, Nat.le_of_not_lt hsz,
              by simp [call_download_api, hc1, hc2, hsz]⟩

/-! ### Claim C6 -/

/-- C6: the client returns either absence of both components or presence of
both; no partial payload (bytes without a name, or a name without bytes) is
ever returned. -/
theorem claim6_no_partial_payload (url : List Char) (w : RemoteWorld) :
    ((call_download_api url w).audioFile = none ∧ (call_download_api url w).trackName = none) ∨
    (∃ a n, (call_download_api url w).audioFile = some a ∧
      (call_download_api url w).trackName = some n) := by
  rcases call_shape url w with ⟨b, e, heq⟩ | ⟨content, _, heq⟩
  · left
    rw [heq]
    exact ⟨rfl, rfl⟩
  · right
    rw [heq]
    exact ⟨_, _, rfl, rfl⟩

/-! ### Claim C5 -/

/-- Counterexample to C5 as stated: with a well-formed Phase-1 body and an
empty Phase-2 body, the client returns a payload whose bytes are empty — the
source never checks for emptiness, so the non-emptiness half of the
AudioPayload invariant fails. -/
theorem claim5_counterexample :
    (call_download_api (("https://open.spotify.com/track/x").data)
        ⟨.ok ⟨false, some (("iu").data), some (("tok").data)⟩, .ok []⟩).audioFile
      = some ⟨[], ("Track_x.mp3").data⟩ := by
  decide

/-- C5 (amended): every payload the client returns respects the size half of
the AudioPayload invariant — its byte count never exceeds the 50 MiB
ceiling — but its bytes may be empty, since the code never checks emptiness. -/
theorem claim5_size_invariant (url : List Char) (w : RemoteWorld) (a : AudioFile)
    (h : (call_download_api url w).audioFile = some a) :
    a.content.length ≤ sizeLimitBytes := by
  rcases call_shape url w with ⟨b, e, heq⟩ | ⟨content, hle, heq⟩
  · rw [heq] at h
    exact Option.noConfusion h
  · rw [heq] at h
    obtain rfl : (⟨content, track_name url ++ (".mp3").data⟩ : AudioFile) = a :=
      Option.some.inj h
    exact hle

/-- Witness for C5 at a concrete small world. -/
theorem claim5_size_invariant_witness :
    (⟨[3, 4], ("Track_x.mp3").data⟩ : AudioFile).content.length ≤ sizeLimitBytes :=
  claim5_size_invariant (("https://open.spotify.com/track/x").data)
    ⟨.ok ⟨false, some (("iu").data), some (("tok").data)⟩, .ok [3, 4]⟩
    ⟨[3, 4], ("Track_x.mp3").data⟩ (by decide)

/-! ### Claim C3 -/

/-- Demonstration URL used for the boundary witness. -/
def demoUrl : List Char := ("https://open.spotify.com/track/x").data

/-- Demonstration well-formed Phase-1 body used for the boundary witness. -/
def demoBody : ApiBody := ⟨false, some (("iu").data), some (("tok").data)⟩

/-- C3: the 50 MiB ceiling is inclusive — a Phase-2 body of exactly 52428800
bytes is accepted and returned as the payload, while one of 52428801 bytes is
rejected with the PayloadTooLarge classification, absence is returned, and
the delivery step never sends audio. -/
theorem claim3_size_boundary (url : List Char) (w : RemoteWorld) (b : ApiBody)
    (content : List Nat)
    (h1 : w.p1 = .ok b) (he : b.errorIsTrue = false)
    (hu : pyTruthy b.url = true) (hp : pyTruthy b.payload = true)
    (h2 : w.p2 = .ok content) :
    (content.length = 52428800 →
      (call_download_api url w).audioFile
          = some ⟨content, track_name url ++ (".mp3").data⟩ ∧
      (call_download_api url w).trackName = some (track_name url) ∧
      (call_download_api url w).exit = .success) ∧
    (content.length = 52428801 →
      (call_download_api url w).audioFile = none ∧
      (call_download_api url w).trackName = none ∧
      classify (call_download_api url w).exit = some .PayloadTooLarge ∧
      ∀ sf ef, DeliveryEvent.audioSent ∉ process_spotify_link url w sf ef) := by
  constructor
  · intro hlen
    have hsz : ¬ sizeLimitBytes < content.length := by
      rw [hlen]
      decide
    refine ⟨?_, ?_, ?_⟩ <;> simp [call_download_api, h1, h2, he, hu, hp, hsz]
  · intro hlen
    have hsz : sizeLimitBytes < content.length := by
      rw [hlen]
      decide
    have hres : (call_download_api url w).audioFile = none := by
      simp [call_download_api, h1, h2, he, hu, hp, hsz]
    refine ⟨hres, ?_, ?_, ?_⟩
    · simp [call_download_api, h1, h2, he, hu, hp, hsz]
    · simp [call_download_api, h1, h2, he, hu, hp, hsz, classify]
    · intro sf ef
      simp [process_spotify_link, hres, deliverStep]

/-- Witness for C3 at both sides of the boundary. -/
theorem claim3_size_boundary_witness :
    ((call_download_api demoUrl ⟨.ok demoBody, .ok (List.replicate 52428800 0)⟩).audioFile
        = some ⟨List.replicate 52428800 0, track_name demoUrl ++ (".mp3").data⟩) ∧
    ((call_download_api demoUrl ⟨.ok demoBody, .ok (List.replicate 52428801 0)⟩).audioFile
        = none) :=
  ⟨((claim3_size_boundary demoUrl _ demoBody _ rfl rfl rfl rfl rfl).1
      (List.length_replicate _ _)).1,
   ((claim3_size_boundary demoUrl _ demoBody _ rfl rfl rfl rfl rfl).2
      (List.length_replicate _ _)).1⟩

/-! ### Claim C9 -/

/-- C9: on every exit path of the delivery step with a payload in hand —
successful send, failed send, and failed status edit alike — the buffer is
closed, and it is the last thing that happens before the step returns. -/
theorem claim9_buffer_released (sendFails editFails : Bool) :
    (deliverStep true sendFails editFails).getLast? = some DeliveryEvent.bufferClosed ∧
    DeliveryEvent.bufferClosed ∈ deliverStep true sendFails editFails := by
  cases sendFails <;> cases editFails <;> exact ⟨rfl, by decide⟩

/-! ### Claim C10 -/

/-- C10: the status message is edited to the success text only after the
audio send completed without error — the success edit appears only in the
trace where the send succeeded, immediately after the send — and if the send
raises, the success text never appears and the distinct delivery-failure
reply is sent instead. -/
theorem claim10_success_edit_order (sendFails editFails : Bool) :
    (DeliveryEvent.statusEditedSuccess ∈ deliverStep true sendFails editFails →
      sendFails = false ∧
      deliverStep true sendFails editFails
        = [DeliveryEvent.audioSent, DeliveryEvent.statusEditedSuccess,
           DeliveryEvent.bufferClosed]) ∧
    (sendFails = true →
      DeliveryEvent.statusEditedSuccess ∉ deliverStep true sendFails editFails ∧
      DeliveryEvent.deliveryFailureReply ∈ deliverStep true sendFails editFails) := by
  cases sendFails <;> cases editFails <;> exact ⟨by decide, by decide⟩

/-- Witness for C10 on the failed-send path. -/
theorem claim10_success_edit_order_witness :
    DeliveryEvent.statusEditedSuccess ∉ deliverStep true true false ∧
    DeliveryEvent.deliveryFailureReply ∈ deliverStep true true false :=
  (claim10_success_edit_order true false).2 rfl

end SpotifyBot
